import Mathlib

/-!
Verification of the SplitLease backend job-processing pipeline.

This file gives a shallow embedding of the worker code
(`src/drivaliaHybridWorker.js`, `src/lexWorker.js`,
`src/drivaliaBrowserWorker.js`, `src/supabase.js`) and proves or refutes
the specification's claims about it.  External effects (the vendor quote
API, the Supabase job store, the browser session) are modelled by an
oracle record supplying the outcome of each call; the control flow of
`processJob` and `poll` is translated statement by statement.
-/

namespace SplitLease

/-- Job lifecycle status, as stored in the `status` column of the jobs
tables (`pending`, `processing`, `completed`, `failed`). -/
inductive JobStatus where
  | pending
  | processing
  | completed
  | failed
deriving DecidableEq, Repr

/-- The fixed term enumeration expanded from `config.terms === 'ALL'`
(drivaliaHybridWorker.js line 321, lexWorker.js line 288). -/
def ALL_TERMS : List Nat := [24, 36, 48, 60]

/-- The fixed mileage enumeration expanded from `config.mileages === 'ALL'`
(drivaliaHybridWorker.js line 325, lexWorker.js line 290). -/
def ALL_MILEAGES : List Nat := [5000, 8000, 10000, 12000, 15000, 20000, 25000, 30000]

/-- A term/mileage selection in a Drivalia job config.  The worker tests
`config.terms === 'ALL'` and otherwise takes `[parseInt(config.terms)]`;
`one n` stands for a config field whose `parseInt` is the number `n`. -/
inductive Sel where
  | all
  | one (n : Nat)
deriving DecidableEq, Repr

/-- Job configuration as read by the Drivalia workers
(`job.config`: terms, mileages, maintenance, deposit). -/
structure HConfig where
  terms : Sel
  mileages : Sel
  maintenance : Bool
  deposit : Nat
deriving DecidableEq, Repr

/-- `config.terms === 'ALL' ? [24,36,48,60] : [parseInt(config.terms)]`
(drivaliaHybridWorker.js lines 320-322). -/
def HConfig.termList (c : HConfig) : List Nat :=
  match c.terms with
  | .all => ALL_TERMS
  | .one n => [n]

/-- `config.mileages === 'ALL' ? [5000,...,30000] : [parseInt(config.mileages)]`
(drivaliaHybridWorker.js lines 324-326). -/
def HConfig.mileageList (c : HConfig) : List Nat :=
  match c.mileages with
  | .all => ALL_MILEAGES
  | .one n => [n]

/-- A vehicle row of a job's `vehicles` array; only the identity matters
to the control flow, free-text fields are opaque to it. -/
structure HVehicle where
  id : Nat
deriving DecidableEq, Repr

/-- A job row from the `drivalia_jobs` table as consumed by `processJob`:
id, vehicle array, config, and the stored `vehicle_count`. -/
structure HJob where
  id : Nat
  vehicles : List HVehicle
  config : HConfig
  vehicle_count : Nat
deriving Repr

/-- One generated quote request: the unit of work of the matrix
expansion (vehicle, term, mileage, plus the job's maintenance/deposit). -/
structure QuoteRequest where
  vehicleId : Nat
  term : Nat
  mileage : Nat
  maintenance : Bool
  deposit : Nat
deriving DecidableEq, Repr

/-- Matrix expansion: `for vehicle of job.vehicles, for term of terms,
for mileage of mileages` (drivaliaHybridWorker.js lines 335-389), as the
ordered request sequence it enumerates. -/
def expandMatrix (vehicles : List HVehicle) (c : HConfig) : List QuoteRequest :=
  vehicles.flatMap fun v =>
    c.termList.flatMap fun t =>
      c.mileageList.map fun m =>
        ⟨v.id, t, m, c.maintenance, c.deposit⟩

/-- Outcome of one `calculateQuote` call against the vendor API.  The
source distinguishes errors only by their message; the transient flag
records how the specification would classify the error (timeout or
rate-limit signal) — the worker code never inspects it. -/
inductive QuoteRes where
  | ok
  | errTransient
  | errPermanent
deriving DecidableEq, Repr

/-- Oracle fixing the outcome of every external call `processJob` makes:
the job-store writes, the browser login, `findVariant` per vehicle id
and `calculateQuote` per (vehicle id, term, mileage). `false` on a
store/login flag means that call throws. -/
structure VendorOracle where
  startOk : Bool
  loginOk : Bool
  resolve : Nat → Bool
  quote : Nat → Nat → Nat → QuoteRes
  insertOk : Bool
  completeOk : Bool
  failOk : Bool

/-- One observable event in the execution trace of the per-vehicle loop:
a `findVariant` lookup, a `calculateQuote` call (with its outcome), or
the `setTimeout` rate-limit pause. -/
inductive Event where
  | resolveCall (vid : Nat)
  | quoteCall (vid term mileage : Nat) (ok : Bool)
  | delay (ms : Nat)
deriving DecidableEq, Repr

/-- A quote row accumulated in `allQuotes` and later bulk-inserted;
only the identifying fields matter to the claims. -/
structure HQuote where
  vehicle_id : Nat
  term : Nat
  mileage : Nat
deriving DecidableEq, Repr

/-- A write issued against the job state store (supabase.js):
`startProcessingJob`, `insertQuotes`, `completeJob`, `failJob`. -/
inductive StoreOp where
  | startProcessing (jobId : Nat)
  | insertQuotes (jobId : Nat) (quotes : List HQuote)
  | completeJob (jobId succ fail : Nat)
  | failJob (jobId failureCount : Nat)
deriving DecidableEq, Repr

/-- The in-memory accumulator of the per-vehicle loop:
`successCount`, `failureCount`, `allQuotes`, plus the event trace. -/
structure Acc where
  succ : Nat
  fail : Nat
  quotes : List HQuote
  events : List Event
deriving Repr

/-- Counters and quote list start at zero/empty
(drivaliaHybridWorker.js lines 328-330). -/
def Acc.init : Acc := ⟨0, 0, [], []⟩

/-- The (term, mileage) grid iterated for one resolved vehicle:
`for term of terms { for mileage of mileages { ... } }`. -/
def HConfig.cells (c : HConfig) : List (Nat × Nat) :=
  c.termList.flatMap fun t => c.mileageList.map fun m => (t, m)

/-- The innermost try/catch of `processJob` (drivaliaHybridWorker.js
lines 349-387): call `calculateQuote`; on success push the quote, count
a success and sleep 500 ms; on any thrown error count a failure (the
catch does not inspect the error and does not sleep). -/
def runCell (o : VendorOracle) (vid : Nat) (tm : Nat × Nat) (a : Acc) : Acc :=
  match o.quote vid tm.1 tm.2 with
  | .ok =>
      { a with
        succ := a.succ + 1
        quotes := a.quotes ++ [⟨vid, tm.1, tm.2⟩]
        events := a.events ++ [.quoteCall vid tm.1 tm.2 true, .delay 500] }
  | _ =>
      { a with
        fail := a.fail + 1
        events := a.events ++ [.quoteCall vid tm.1 tm.2 false] }

/-- The per-vehicle try/catch (drivaliaHybridWorker.js lines 335-395):
`findVariant`, then the term × mileage loop; if the lookup throws, the
catch increments `failureCount` once and moves to the next vehicle. -/
def runVehicle (o : VendorOracle) (c : HConfig) (a : Acc) (v : HVehicle) : Acc :=
  if o.resolve v.id then
    (c.cells).foldl (fun a tm => runCell o v.id tm a)
      { a with events := a.events ++ [.resolveCall v.id] }
  else
    { a with fail := a.fail + 1, events := a.events ++ [.resolveCall v.id] }

/-- The whole vehicle loop of `processJob`. -/
def runVehicles (o : VendorOracle) (c : HConfig) (vs : List HVehicle) : Acc :=
  vs.foldl (runVehicle o c) Acc.init

/-- Everything observable about one `processJob(job)` invocation after
its promise settles: the job row's final status and counters, the quote
rows persisted, the store writes and vendor-call trace, the
`processingJobs` set right after the synchronous `add` and after the
`finally`, and whether the invocation itself rejected. -/
structure Outcome where
  status : JobStatus
  success_count : Nat
  failure_count : Nat
  persisted : List HQuote
  ops : List StoreOp
  events : List Event
  procDuring : Finset Nat
  procSet : Finset Nat
  threw : Bool

/-- `DrivaliaHybridWorker.processJob` (drivaliaHybridWorker.js lines
306-421), branch by branch.  `this.processingJobs.add(jobId)` runs
before the first await; the try body is `startProcessingJob`, the
terms/mileages expansion, `ensureLoggedIn`, the vehicle loop,
`insertQuotes` when `allQuotes.length > 0`, then `completeJob`; the
catch calls `failJob(jobId, {error, stack}, job.vehicle_count)`; the
finally always deletes the job id from the set.  `failJob` writes only
status, error details and `failure_count`; a job row is created with
zero counts, so `success_count` stays 0 on every catch path.  When a
store write in the catch itself throws, the persisted status is
whatever the last successful write left (`pending` if
`startProcessingJob` threw, `processing` otherwise). -/
def processJob (o : VendorOracle) (job : HJob) (procSet : Finset Nat) : Outcome :=
  let during := insert job.id procSet
  let after := during.erase job.id
  if o.startOk = false then
    { status := if o.failOk then .failed else .pending
      success_count := 0
      failure_count := if o.failOk then job.vehicle_count else 0
      persisted := []
      ops := if o.failOk then [.failJob job.id job.vehicle_count] else []
      events := []
      procDuring := during
      procSet := after
      threw := o.failOk = false }
  else if o.loginOk = false then
    { status := if o.failOk then .failed else .processing
      success_count := 0
      failure_count := if o.failOk then job.vehicle_count else 0
      persisted := []
      ops := [.startProcessing job.id] ++
        (if o.failOk then [.failJob job.id job.vehicle_count] else [])
      events := []
      procDuring := during
      procSet := after
      threw := o.failOk = false }
  else
    let a := runVehicles o job.config job.vehicles
    if a.quotes ≠ [] ∧ o.insertOk = false then
      { status := if o.failOk then .failed else .processing
        success_count := 0
        failure_count := if o.failOk then job.vehicle_count else 0
        persisted := []
        ops := [.startProcessing job.id] ++
          (if o.failOk then [.failJob job.id job.vehicle_count] else [])
        events := a.events
        procDuring := during
        procSet := after
        threw := o.failOk = false }
    else if o.completeOk = false then
      { status := if o.failOk then .failed else .processing
        success_count := 0
        failure_count := if o.failOk then job.vehicle_count else 0
        persisted := a.quotes
        ops := [.startProcessing job.id] ++
          (if a.quotes = [] then [] else [.insertQuotes job.id a.quotes]) ++
          (if o.failOk then [.failJob job.id job.vehicle_count] else [])
        events := a.events
        procDuring := during
        procSet := after
        threw := o.failOk = false }
    else
      { status := .completed
        success_count := a.succ
        failure_count := a.fail
        persisted := a.quotes
        ops := [.startProcessing job.id] ++
          (if a.quotes = [] then [] else [.insertQuotes job.id a.quotes]) ++
          [.completeJob job.id a.succ a.fail]
        events := a.events
        procDuring := during
        procSet := after
        threw := false }

/-! ## Lex worker matrix expansion (lexWorker.js lines 287-291)

The Lex worker's expansion differs from the Drivalia workers in one
point: an absent config value falls back through JavaScript `||` to a
default (`parseInt(config.terms || 36)`, `parseInt(config.mileages ||
10000)`).  `missing` stands for an omitted (undefined) field; a numeric
`0` is also falsy in JavaScript and falls back the same way. -/

/-- A term/mileage selection in a Lex job config. -/
inductive LSel where
  | all
  | one (n : Nat)
  | missing
deriving DecidableEq, Repr

/-- `config.terms === 'ALL' ? [24,36,48,60] : [parseInt(config.terms || 36)]`
(lexWorker.js line 288). -/
def lexTermList : LSel → List Nat
  | .all => ALL_TERMS
  | .one n => [if n = 0 then 36 else n]
  | .missing => [36]

/-- `config.mileages === 'ALL' ? [5000,...,30000] : [parseInt(config.mileages || 10000)]`
(lexWorker.js lines 289-291). -/
def lexMileageList : LSel → List Nat
  | .all => ALL_MILEAGES
  | .one n => [if n = 0 then 10000 else n]
  | .missing => [10000]

/-- A Lex job config: just the two selections matter to expansion. -/
structure LexConfig where
  terms : LSel
  mileages : LSel
deriving DecidableEq, Repr

/-- The (term, mileage) grid the Lex worker iterates per vehicle
(`for term of terms { for mileage of mileages { ... } }`,
lexWorker.js lines 307-308). -/
def lexGrid (c : LexConfig) : List (Nat × Nat) :=
  (lexTermList c.terms).flatMap fun t => (lexMileageList c.mileages).map fun m => (t, m)

/-- The full request sequence a Lex job generates over its vehicle ids. -/
def lexExpand (vids : List Nat) (c : LexConfig) : List (Nat × Nat × Nat) :=
  vids.flatMap fun v => (lexGrid c).map fun tm => (v, tm.1, tm.2)

/-! ## Orchestrator poll cycle and concurrency bound

`poll` (drivaliaBrowserWorker.js lines 472-497, drivaliaHybridWorker.js
lines 423-443) returns immediately when `processingJobs.size >=
MAX_CONCURRENT_JOBS`, otherwise slices the pending list to the free
slots and starts `processJob` on each, which synchronously adds the job
id to the set.  `processJob`'s `finally` removes the id when the job
settles.  The `processingJobs` JavaScript `Set` is modelled as a
`Finset Nat`. -/

/-- One atomic poll cycle over the in-process id set: claim the first
`maxJobs - size` pending ids (`pendingJobs.slice(0, MAX_CONCURRENT_JOBS -
this.processingJobs.size)`), each claimed job adding its id. -/
def pollStep (maxJobs : Nat) (pending : List Nat) (s : Finset Nat) : Finset Nat :=
  if maxJobs ≤ s.card then s
  else (pending.take (maxJobs - s.card)).foldl (fun acc j => insert j acc) s

/-- A job settling removes its id from the set (the `finally` clause). -/
def finishStep (j : Nat) (s : Finset Nat) : Finset Nat := s.erase j

/-- An orchestrator step: either a poll cycle (with whatever pending ids
the store returned) or the settlement of one job. -/
inductive WAction where
  | poll (pending : List Nat)
  | finish (j : Nat)

/-- Apply one orchestrator step to the in-process set. -/
def wStep (maxJobs : Nat) (a : WAction) (s : Finset Nat) : Finset Nat :=
  match a with
  | .poll pending => pollStep maxJobs pending s
  | .finish j => finishStep j s

/-- Run the orchestrator from its initial empty in-process set through a
sequence of steps. -/
def workerRun (maxJobs : Nat) (acts : List WAction) : Finset Nat :=
  acts.foldl (fun s a => wStep maxJobs a s) ∅

/-! ## Job store pending-job query (supabase.js lines 28-37, 209-217)

`getPendingJobs` selects rows with `status = 'pending'` ordered by
`created_at` ascending. -/

/-- A row of a jobs table, as far as the poll path reads it. -/
structure JobRow where
  id : Nat
  status : JobStatus
  created_at : Nat
deriving DecidableEq, Repr

/-- `getPendingJobs`: filter on `status = 'pending'`, order by
`created_at` ascending.  The database's sort algorithm is unspecified;
it is modelled by insertion sort, which realizes exactly the query's
contract (a permutation of the filtered rows, sorted ascending by
`created_at`). -/
def getPendingJobs (table : List JobRow) : List JobRow :=
  (table.filter fun j => j.status = JobStatus.pending).insertionSort
    fun a b => a.created_at ≤ b.created_at

/-- The claims made by one poll cycle with `free` slots:
`pendingJobs.slice(0, free)`. -/
def claimJobs (free : Nat) (pending : List JobRow) : List JobRow :=
  pending.take free

/-! ## Closed forms for the per-vehicle loop -/

/-- Successes one grid cell contributes (1 when `calculateQuote` returns). -/
def cellSucc (o : VendorOracle) (vid : Nat) (tm : Nat × Nat) : Nat :=
  match o.quote vid tm.1 tm.2 with
  | .ok => 1
  | _ => 0

/-- Failures one grid cell contributes (1 when `calculateQuote` throws). -/
def cellFail (o : VendorOracle) (vid : Nat) (tm : Nat × Nat) : Nat :=
  match o.quote vid tm.1 tm.2 with
  | .ok => 0
  | _ => 1

/-- Quote rows one grid cell pushes onto `allQuotes`. -/
def cellQuote (o : VendorOracle) (vid : Nat) (tm : Nat × Nat) : List HQuote :=
  match o.quote vid tm.1 tm.2 with
  | .ok => [⟨vid, tm.1, tm.2⟩]
  | _ => []

/-- Trace events one grid cell emits: the call, plus the 500 ms pause
only on success. -/
def cellEvents (o : VendorOracle) (vid : Nat) (tm : Nat × Nat) : List Event :=
  match o.quote vid tm.1 tm.2 with
  | .ok => [.quoteCall vid tm.1 tm.2 true, .delay 500]
  | _ => [.quoteCall vid tm.1 tm.2 false]

/-- Successes one vehicle contributes to `successCount`. -/
def vSucc (o : VendorOracle) (c : HConfig) (v : HVehicle) : Nat :=
  if o.resolve v.id then ((c.cells).map (cellSucc o v.id)).sum else 0

/-- Failures one vehicle contributes to `failureCount`. -/
def vFail (o : VendorOracle) (c : HConfig) (v : HVehicle) : Nat :=
  if o.resolve v.id then ((c.cells).map (cellFail o v.id)).sum else 1

/-- Quote rows one vehicle contributes to `allQuotes`. -/
def vQuotes (o : VendorOracle) (c : HConfig) (v : HVehicle) : List HQuote :=
  if o.resolve v.id then (c.cells).flatMap (cellQuote o v.id) else []

/-- Trace events one vehicle emits. -/
def vEvents (o : VendorOracle) (c : HConfig) (v : HVehicle) : List Event :=
  if o.resolve v.id then .resolveCall v.id :: (c.cells).flatMap (cellEvents o v.id)
  else [.resolveCall v.id]

theorem runCell_eq (o : VendorOracle) (vid : Nat) (tm : Nat × Nat) (a : Acc) :
    runCell o vid tm a =
      ⟨a.succ + cellSucc o vid tm, a.fail + cellFail o vid tm,
       a.quotes ++ cellQuote o vid tm, a.events ++ cellEvents o vid tm⟩ := by
  cases h : o.quote vid tm.1 tm.2 <;>
    simp [runCell, cellSucc, cellFail, cellQuote, cellEvents, h]

theorem runCells_eq (o : VendorOracle) (vid : Nat) (l : List (Nat × Nat)) (a : Acc) :
    l.foldl (fun a tm => runCell o vid tm a) a =
      ⟨a.succ + (l.map (cellSucc o vid)).sum, a.fail + (l.map (cellFail o vid)).sum,
       a.quotes ++ l.flatMap (cellQuote o vid), a.events ++ l.flatMap (cellEvents o vid)⟩ := by
  induction l generalizing a with
  | nil => simp
  | cons tm l ih =>
      rw [List.foldl_cons, ih]
      simp [runCell_eq, List.append_assoc, Nat.add_assoc]

theorem runVehicle_eq (o : VendorOracle) (c : HConfig) (a : Acc) (v : HVehicle) :
    runVehicle o c a v =
      ⟨a.succ + vSucc o c v, a.fail + vFail o c v,
       a.quotes ++ vQuotes o c v, a.events ++ vEvents o c v⟩ := by
  cases h : o.resolve v.id <;>
    simp [runVehicle, vSucc, vFail, vQuotes, vEvents, h, runCells_eq]

theorem runVehiclesFrom_eq (o : VendorOracle) (c : HConfig) (vs : List HVehicle) (a : Acc) :
    vs.foldl (runVehicle o c) a =
      ⟨a.succ + (vs.map (vSucc o c)).sum, a.fail + (vs.map (vFail o c)).sum,
       a.quotes ++ vs.flatMap (vQuotes o c), a.events ++ vs.flatMap (vEvents o c)⟩ := by
  induction vs generalizing a with
  | nil => simp
  | cons v vs ih =>
      rw [List.foldl_cons, ih]
      simp [runVehicle_eq, List.append_assoc, Nat.add_assoc]

theorem runVehicles_eq (o : VendorOracle) (c : HConfig) (vs : List HVehicle) :
    runVehicles o c vs =
      ⟨(vs.map (vSucc o c)).sum, (vs.map (vFail o c)).sum,
       vs.flatMap (vQuotes o c), vs.flatMap (vEvents o c)⟩ := by
  simp [runVehicles, Acc.init, runVehiclesFrom_eq]

theorem cells_length (c : HConfig) :
    (c.cells).length = c.termList.length * c.mileageList.length := by
  simp [HConfig.cells, List.length_flatMap, Function.comp_def, List.map_const',
    List.sum_replicate, smul_eq_mul, Nat.mul_comm]

theorem cellSucc_add_cellFail (o : VendorOracle) (vid : Nat) (tm : Nat × Nat) :
    cellSucc o vid tm + cellFail o vid tm = 1 := by
  cases h : o.quote vid tm.1 tm.2 <;> simp [cellSucc, cellFail, h]

theorem sum_cellSucc_add_sum_cellFail (o : VendorOracle) (vid : Nat) (l : List (Nat × Nat)) :
    (l.map (cellSucc o vid)).sum + (l.map (cellFail o vid)).sum = l.length := by
  induction l with
  | nil => simp
  | cons tm l ih =>
      have h := cellSucc_add_cellFail o vid tm
      simp only [List.map_cons, List.sum_cons, List.length_cons]
      omega

/-- A resolved vehicle contributes exactly one outcome per grid cell. -/
theorem vSucc_add_vFail (o : VendorOracle) (c : HConfig) (v : HVehicle)
    (h : o.resolve v.id = true) :
    vSucc o c v + vFail o c v = c.termList.length * c.mileageList.length := by
  simp [vSucc, vFail, h, sum_cellSucc_add_sum_cellFail, cells_length]

/-! ## Counting vendor calls in a trace -/

/-- Is this event a `calculateQuote` call? -/
def isQuoteCall : Event → Bool
  | .quoteCall _ _ _ _ => true
  | _ => false

/-- Is this event any call to the vendor session client
(vehicle lookup or quote calculation)? -/
def isVendorCall : Event → Bool
  | .resolveCall _ => true
  | .quoteCall _ _ _ _ => true
  | .delay _ => false

/-- Number of `calculateQuote` calls in a trace. -/
def quoteCallCount (es : List Event) : Nat := es.countP isQuoteCall

/-- Number of `calculateQuote` calls for one specific request
(vehicle, term, mileage) in a trace. -/
def callsFor (vid t m : Nat) (es : List Event) : Nat :=
  es.countP fun e =>
    match e with
    | .quoteCall v t2 m2 _ => v == vid && t2 == t && m2 == m
    | _ => false

theorem countP_flatMap {α β : Type} (p : β → Bool) (f : α → List β) (l : List α) :
    (l.flatMap f).countP p = (l.map fun x => (f x).countP p).sum := by
  induction l with
  | nil => simp
  | cons x l ih => simp [List.flatMap_cons, List.countP_append, ih]

theorem quoteCallCount_cellEvents (o : VendorOracle) (vid : Nat) (tm : Nat × Nat) :
    quoteCallCount (cellEvents o vid tm) = 1 := by
  cases h : o.quote vid tm.1 tm.2 <;>
    simp [quoteCallCount, cellEvents, h, isQuoteCall, List.countP_cons]

theorem quoteCallCount_vEvents (o : VendorOracle) (c : HConfig) (v : HVehicle) :
    quoteCallCount (vEvents o c v) =
      if o.resolve v.id then c.termList.length * c.mileageList.length else 0 := by
  cases h : o.resolve v.id
  · simp [vEvents, h, quoteCallCount, isQuoteCall, List.countP_cons]
  · have hcells : ((c.cells).map fun tm => quoteCallCount (cellEvents o v.id tm)).sum
        = (c.cells).length := by
      rw [List.map_congr_left fun tm _ => quoteCallCount_cellEvents o v.id tm]
      simp [List.map_const', List.sum_replicate]
    simp only [vEvents, h, if_true, quoteCallCount, List.countP_cons]
    rw [show (List.countP isQuoteCall ((c.cells).flatMap (cellEvents o v.id)))
        = quoteCallCount ((c.cells).flatMap (cellEvents o v.id)) from rfl]
    simp only [quoteCallCount, countP_flatMap]
    rw [show ((c.cells).map fun x => List.countP isQuoteCall (cellEvents o v.id x))
        = (c.cells).map fun tm => quoteCallCount (cellEvents o v.id tm) from rfl]
    simp [hcells, isQuoteCall, cells_length]

/-! ## Rate-limit pacing in a trace -/

/-- Every successful quote call is immediately followed by the 500 ms
`setTimeout` pause. -/
def pacedAfterSuccess : List Event → Bool
  | [] => true
  | .quoteCall _ _ _ true :: rest =>
      match rest with
      | .delay 500 :: _ => pacedAfterSuccess rest
      | _ => false
  | _ :: rest => pacedAfterSuccess rest

/-- Between any two consecutive vendor calls there is some intervening
event (in this trace shape, a delay): no two vendor calls are adjacent. -/
def noAdjacentVendorCalls : List Event → Bool
  | a :: b :: rest => !(isVendorCall a && isVendorCall b) && noAdjacentVendorCalls (b :: rest)
  | _ => true

/-- A block of trace events as emitted by one source statement: a
vehicle lookup, a successful quote call with its pause, or a failed
quote call. -/
def goodBlock (b : List Event) : Prop :=
  (∃ vid, b = [.resolveCall vid]) ∨
  (∃ vid t m, b = [.quoteCall vid t m true, .delay 500]) ∨
  (∃ vid t m, b = [.quoteCall vid t m false])

theorem paced_join (bs : List (List Event)) (h : ∀ b ∈ bs, goodBlock b) :
    pacedAfterSuccess bs.flatten = true := by
  induction bs with
  | nil => rfl
  | cons b bs ih =>
      have hb := h b (by simp)
      have hrest := ih fun x hx => h x (by simp [hx])
      rcases hb with ⟨vid, rfl⟩ | ⟨vid, t, m, rfl⟩ | ⟨vid, t, m, rfl⟩ <;>
        simpa [pacedAfterSuccess] using hrest

/-- The trace blocks emitted by the vehicle loop. -/
def eventBlocks (o : VendorOracle) (c : HConfig) (vs : List HVehicle) : List (List Event) :=
  vs.flatMap fun v =>
    if o.resolve v.id then [.resolveCall v.id] :: (c.cells).map (cellEvents o v.id)
    else [[.resolveCall v.id]]

theorem join_eventBlocks (o : VendorOracle) (c : HConfig) (vs : List HVehicle) :
    (eventBlocks o c vs).flatten = vs.flatMap (vEvents o c) := by
  induction vs with
  | nil => rfl
  | cons v vs ih =>
      cases h : o.resolve v.id <;>
        simp [eventBlocks, vEvents, h, List.flatMap_cons, List.flatten_append,
          List.flatMap_def] at ih ⊢ <;>
        simp [ih]

theorem goodBlock_eventBlocks (o : VendorOracle) (c : HConfig) (vs : List HVehicle) :
    ∀ b ∈ eventBlocks o c vs, goodBlock b := by
  intro b hb
  simp only [eventBlocks, List.mem_flatMap] at hb
  obtain ⟨v, _, hv⟩ := hb
  cases h : o.resolve v.id <;> simp [h] at hv
  · exact Or.inl ⟨v.id, hv⟩
  · rcases hv with hv | ⟨t2, m2, hmem, hb⟩
    · exact Or.inl ⟨v.id, hv⟩
    · subst hb
      cases hq : o.quote v.id t2 m2
      · exact Or.inr (Or.inl ⟨v.id, t2, m2, by simp [cellEvents, hq]⟩)
      · exact Or.inr (Or.inr ⟨v.id, t2, m2, by simp [cellEvents, hq]⟩)
      · exact Or.inr (Or.inr ⟨v.id, t2, m2, by simp [cellEvents, hq]⟩)

theorem paced_runVehicles (o : VendorOracle) (c : HConfig) (vs : List HVehicle) :
    pacedAfterSuccess (runVehicles o c vs).events = true := by
  rw [runVehicles_eq]
  rw [show (Acc.mk ((vs.map (vSucc o c)).sum) ((vs.map (vFail o c)).sum)
      (vs.flatMap (vQuotes o c)) (vs.flatMap (vEvents o c))).events
      = vs.flatMap (vEvents o c) from rfl]
  rw [← join_eventBlocks]
  exact paced_join _ (goodBlock_eventBlocks o c vs)

/-! ## Generic list helpers -/

theorem getElem?_flatMap_uniform {α β : Type} {f : α → List β} {k : Nat}
    (hf : ∀ x, (f x).length = k) :
    ∀ (l : List α) (i j : Nat) (hi : i < l.length), j < k →
    (l.flatMap f)[i * k + j]? = (f (l.get ⟨i, hi⟩))[j]? := by
  intro l
  induction l with
  | nil => intro i j hi _; simp at hi
  | cons x xs ih =>
      intro i j hi hj
      cases i with
      | zero =>
          rw [List.flatMap_cons, Nat.zero_mul, Nat.zero_add,
            List.getElem?_append_left (by rw [hf x]; exact hj)]
          rfl
      | succ i =>
          have hxk : (f x).length ≤ (i + 1) * k + j := by
            rw [hf x, Nat.succ_mul]; omega
          rw [List.flatMap_cons, List.getElem?_append_right hxk, hf x]
          have harith : (i + 1) * k + j - k = i * k + j := by
            rw [Nat.succ_mul]; omega
          rw [harith]
          exact ih i j (by simpa using hi) hj

theorem sum_map_add {α : Type} (f g : α → Nat) (l : List α) :
    (l.map f).sum + (l.map g).sum = (l.map fun x => f x + g x).sum := by
  induction l with
  | nil => simp
  | cons x l ih =>
      simp only [List.map_cons, List.sum_cons]
      omega

theorem sum_map_ite_const {α : Type} (p : α → Bool) (k : Nat) (l : List α) :
    (l.map fun x => if p x then k else 0).sum = l.countP p * k := by
  induction l with
  | nil => simp
  | cons x l ih =>
      cases h : p x
      · simp [List.countP_cons, h, ih]
      · simp only [List.map_cons, List.sum_cons, List.countP_cons, h, if_pos, ih]
        simp [Nat.add_mul]
        omega

theorem card_foldl_insert_le (l : List Nat) (s : Finset Nat) :
    (l.foldl (fun acc j => insert j acc) s).card ≤ s.card + l.length := by
  induction l generalizing s with
  | nil => simp
  | cons j l ih =>
      calc (List.foldl (fun acc j => insert j acc) (insert j s) l).card
          ≤ (insert j s).card + l.length := ih (insert j s)
        _ ≤ s.card + 1 + l.length := by
            have := Finset.card_insert_le j s
            omega
        _ = s.card + (j :: l).length := by simp; omega

theorem card_pollStep_le (maxJobs : Nat) (pending : List Nat) (s : Finset Nat)
    (h : s.card ≤ maxJobs) : (pollStep maxJobs pending s).card ≤ maxJobs := by
  unfold pollStep
  split
  · exact h
  · calc ((pending.take (maxJobs - s.card)).foldl (fun acc j => insert j acc) s).card
        ≤ s.card + (pending.take (maxJobs - s.card)).length := card_foldl_insert_le _ s
      _ ≤ s.card + (maxJobs - s.card) := by
          have := List.length_take (maxJobs - s.card) pending
          simp only [this]
          omega
      _ ≤ maxJobs := by omega

theorem card_wStep_le (maxJobs : Nat) (a : WAction) (s : Finset Nat)
    (h : s.card ≤ maxJobs) : (wStep maxJobs a s).card ≤ maxJobs := by
  cases a with
  | poll pending => exact card_pollStep_le maxJobs pending s h
  | finish j =>
      have := Finset.card_erase_le (a := j) (s := s)
      simp only [wStep, finishStep]
      omega

theorem card_foldl_wStep_le (maxJobs : Nat) (acts : List WAction) (s : Finset Nat)
    (h : s.card ≤ maxJobs) :
    (acts.foldl (fun s a => wStep maxJobs a s) s).card ≤ maxJobs := by
  induction acts generalizing s with
  | nil => exact h
  | cons a acts ih => exact ih _ (card_wStep_le maxJobs a s h)

/-! ## Claim theorems -/

/-- C4: matrix expansion expands `terms = "ALL"` to exactly
`[24, 36, 48, 60]` and `mileages = "ALL"` to exactly
`[5000, 8000, 10000, 12000, 15000, 20000, 25000, 30000]`; a single
explicit value expands to the one-element list containing it; expansion
is deterministic (equal inputs give equal request sequences); and the
sequence is order-stable, vehicle-major then term then mileage: the
request at flat index `(i * |terms| + j) * |mileages| + k` pairs the
`i`-th vehicle with the `j`-th term and the `k`-th mileage. -/
theorem matrixExpansion_spec :
    (∀ c : HConfig, c.terms = .all → c.termList = [24, 36, 48, 60]) ∧
    (∀ c : HConfig, c.mileages = .all →
      c.mileageList = [5000, 8000, 10000, 12000, 15000, 20000, 25000, 30000]) ∧
    (∀ (c : HConfig) (n : Nat), c.terms = .one n → c.termList = [n]) ∧
    (∀ (c : HConfig) (n : Nat), c.mileages = .one n → c.mileageList = [n]) ∧
    (∀ (vs1 vs2 : List HVehicle) (c1 c2 : HConfig), vs1 = vs2 → c1 = c2 →
      expandMatrix vs1 c1 = expandMatrix vs2 c2) ∧
    (∀ (vs : List HVehicle) (c : HConfig) (i j k : Nat)
      (hi : i < vs.length) (hj : j < c.termList.length) (hk : k < c.mileageList.length),
      (expandMatrix vs c)[(i * c.termList.length + j) * c.mileageList.length + k]? =
        some ⟨(vs.get ⟨i, hi⟩).id, c.termList.get ⟨j, hj⟩, c.mileageList.get ⟨k, hk⟩,
              c.maintenance, c.deposit⟩) := by
  refine ⟨?_, ?_, ?_, ?_, ?_, ?_⟩
  · intro c h; simp [HConfig.termList, h, ALL_TERMS]
  · intro c h; simp [HConfig.mileageList, h, ALL_MILEAGES]
  · intro c n h; simp [HConfig.termList, h]
  · intro c n h; simp [HConfig.mileageList, h]
  · intro vs1 vs2 c1 c2 h1 h2; rw [h1, h2]
  · intro vs c i j k hi hj hk
    have hT : 0 < c.mileageList.length := by omega
    have hinner : ∀ v : HVehicle,
        ((c.termList.flatMap fun t => c.mileageList.map fun m =>
          (⟨v.id, t, m, c.maintenance, c.deposit⟩ : QuoteRequest))).length =
          c.termList.length * c.mileageList.length := by
      intro v
      simp [List.length_flatMap, Function.comp_def, List.map_const',
        List.sum_replicate, smul_eq_mul, Nat.mul_comm]
    have harith : (i * c.termList.length + j) * c.mileageList.length + k =
        i * (c.termList.length * c.mileageList.length) + (j * c.mileageList.length + k) := by
      ring
    have hjk : j * c.mileageList.length + k < c.termList.length * c.mileageList.length := by
      calc j * c.mileageList.length + k < j * c.mileageList.length + c.mileageList.length := by
            omega
        _ = (j + 1) * c.mileageList.length := by ring
        _ ≤ c.termList.length * c.mileageList.length := Nat.mul_le_mul_right _ hj
    rw [expandMatrix, harith, getElem?_flatMap_uniform hinner vs i _ hi hjk,
      getElem?_flatMap_uniform (fun t => List.length_map _ _) c.termList j k hj hk,
      List.getElem?_map]
    rw [List.getElem?_eq_getElem hk]
    rfl

/-- C4 witness: the order-stability component evaluated on a concrete
two-vehicle job with `terms = "ALL"` and a single mileage: flat index
`(1*4 + 2)*1 + 0 = 6` holds vehicle 1, term 48, mileage 10000. -/
theorem matrixExpansion_spec_witness :
    (expandMatrix [⟨5⟩, ⟨7⟩] ⟨.all, .one 10000, false, 0⟩)[6]? =
      some ⟨7, 48, 10000, false, 0⟩ :=
  matrixExpansion_spec.2.2.2.2.2 [⟨5⟩, ⟨7⟩] ⟨.all, .one 10000, false, 0⟩ 1 2 0
    (by decide) (by decide) (by decide)

/-- C10: in the Lex worker, an omitted `terms` config value defaults to
the single term 36 and an omitted `mileages` value to the single mileage
10000, so such a job generates exactly one (term, mileage) pair per
vehicle. -/
theorem lex_defaults :
    lexTermList .missing = [36] ∧
    lexMileageList .missing = [10000] ∧
    lexGrid ⟨.missing, .missing⟩ = [(36, 10000)] ∧
    (∀ vids : List Nat, (lexExpand vids ⟨.missing, .missing⟩).length = vids.length) := by
  refine ⟨rfl, rfl, rfl, ?_⟩
  intro vids
  simp [lexExpand, List.length_flatMap, Function.comp_def, lexGrid, lexTermList,
    lexMileageList, List.map_const', List.sum_replicate, smul_eq_mul]

/-- C9: `processJob` adds the job id to the worker's in-process set
before its first suspension point and the `finally` clause removes it
again when the invocation settles, on every path — completion, failure,
or the finalization/failure write itself throwing (all oracles) — so a
settled job's id never remains in the set and its slot is freed. -/
theorem processingSet_lifecycle (o : VendorOracle) (job : HJob) (s : Finset Nat) :
    (processJob o job s).procDuring = insert job.id s ∧
    job.id ∈ (processJob o job s).procDuring ∧
    job.id ∉ (processJob o job s).procSet ∧
    (processJob o job s).procSet = s.erase job.id := by
  have h : (processJob o job s).procDuring = insert job.id s ∧
      (processJob o job s).procSet = (insert job.id s).erase job.id := by
    simp only [processJob]
    repeat' split
    all_goals exact ⟨rfl, rfl⟩
  obtain ⟨h1, h2⟩ := h
  refine ⟨h1, ?_, ?_, ?_⟩
  · rw [h1]; exact Finset.mem_insert_self _ _
  · rw [h2]; exact Finset.not_mem_erase _ _
  · rw [h2]; exact Finset.erase_insert_eq_erase _ _

/-- C7: the concurrency limit is respected at every step of the
orchestrator: starting from the empty in-process set, after any sequence
of poll cycles and job settlements the in-process set never holds more
than `MAX_CONCURRENT_JOBS` ids; and a poll cycle that finds the limit
already reached claims no pending job at all. -/
theorem concurrency_bound (maxJobs : Nat) :
    (∀ acts : List WAction, (workerRun maxJobs acts).card ≤ maxJobs) ∧
    (∀ (s : Finset Nat) (pending : List Nat), maxJobs ≤ s.card →
      pollStep maxJobs pending s = s) := by
  constructor
  · intro acts
    exact card_foldl_wStep_le maxJobs acts ∅ (by simp)
  · intro s pending h
    unfold pollStep
    rw [if_pos h]

/-- C7 witness: with a limit of 2, a poll over three pending jobs
followed by a second poll leaves at most 2 jobs in process, and a poll
over a full set claims nothing. -/
theorem concurrency_bound_witness :
    (workerRun 2 [.poll [10, 11, 12], .poll [13]]).card ≤ 2 ∧
    pollStep 2 [13, 14] ({10, 11} : Finset Nat) = ({10, 11} : Finset Nat) :=
  ⟨(concurrency_bound 2).1 [.poll [10, 11, 12], .poll [13]],
   (concurrency_bound 2).2 ({10, 11} : Finset Nat) [13, 14] (by decide)⟩

/-- C8: `getPendingJobs` returns exactly the rows whose status is
`pending`, ordered ascending by `created_at`; a poll cycle claims the
first `free` of them, so every claimed job was created no later than
every pending job left unclaimed. -/
theorem pending_claim_order (table : List JobRow) (free : Nat) :
    (∀ j, j ∈ getPendingJobs table ↔ j ∈ table ∧ j.status = .pending) ∧
    (getPendingJobs table).Pairwise (fun a b => a.created_at ≤ b.created_at) ∧
    (∀ a ∈ claimJobs free (getPendingJobs table),
     ∀ b ∈ (getPendingJobs table).drop free,
      a.created_at ≤ b.created_at) := by
  haveI htot : IsTotal JobRow fun a b => a.created_at ≤ b.created_at :=
    ⟨fun a b => Nat.le_total _ _⟩
  haveI htrans : IsTrans JobRow fun a b => a.created_at ≤ b.created_at :=
    ⟨fun _ _ _ hab hbc => Nat.le_trans hab hbc⟩
  have hsorted : (getPendingJobs table).Pairwise fun a b => a.created_at ≤ b.created_at :=
    List.sorted_insertionSort _ _
  refine ⟨?_, hsorted, ?_⟩
  · intro j
    constructor
    · intro hj
      have := (List.perm_insertionSort
        (fun a b : JobRow => a.created_at ≤ b.created_at)
        (table.filter fun j => j.status = JobStatus.pending)).mem_iff.mp hj
      simpa using this
    · intro hj
      exact (List.perm_insertionSort
        (fun a b : JobRow => a.created_at ≤ b.created_at)
        (table.filter fun j => j.status = JobStatus.pending)).mem_iff.mpr
        (by simpa using hj)
  · intro a ha b hb
    have hp := hsorted
    rw [← List.take_append_drop free (getPendingJobs table)] at hp
    exact (List.pairwise_append.mp hp).2.2 a ha b hb

/-- C8 witness: on a concrete table with two pending rows (created at
times 5 and 2) and one completed row, the pending row created at 2 is in
the query result, and with one free slot the claimed job's creation time
is bounded by the unclaimed one's. -/
theorem pending_claim_order_witness :
    ((⟨3, .pending, 2⟩ : JobRow) ∈
      getPendingJobs [⟨1, .pending, 5⟩, ⟨2, .completed, 1⟩, ⟨3, .pending, 2⟩]) ∧
    ((2 : Nat) ≤ 5) :=
  ⟨((pending_claim_order [⟨1, .pending, 5⟩, ⟨2, .completed, 1⟩, ⟨3, .pending, 2⟩] 1).1
      ⟨3, .pending, 2⟩).mpr (by decide),
   (pending_claim_order [⟨1, .pending, 5⟩, ⟨2, .completed, 1⟩, ⟨3, .pending, 2⟩] 1).2.2
      ⟨3, .pending, 2⟩ (by decide) ⟨1, .pending, 5⟩ (by decide)⟩

/-- C1 counterexample: a job with one vehicle whose vendor lookup
fails, `terms = "ALL"` (4 terms) and a single mileage, finalizes as
`completed` with `success_count + failure_count = 0 + 1 = 1`, not
`|Vehicles| × |terms| × |mileages| = 1 × 4 × 1 = 4`: a vehicle
resolution failure increments `failureCount` once, not once per
generated QuoteRequest. -/
theorem jobCounts_invariant_cex :
    ((processJob ⟨true, true, (fun _ => false), (fun _ _ _ => .ok), true, true, true⟩
        ⟨1, [⟨0⟩], ⟨.all, .one 10000, false, 0⟩, 1⟩ ∅).status = .completed) ∧
    ((processJob ⟨true, true, (fun _ => false), (fun _ _ _ => .ok), true, true, true⟩
        ⟨1, [⟨0⟩], ⟨.all, .one 10000, false, 0⟩, 1⟩ ∅).success_count +
      (processJob ⟨true, true, (fun _ => false), (fun _ _ _ => .ok), true, true, true⟩
        ⟨1, [⟨0⟩], ⟨.all, .one 10000, false, 0⟩, 1⟩ ∅).failure_count = 1) ∧
    ¬ ((processJob ⟨true, true, (fun _ => false), (fun _ _ _ => .ok), true, true, true⟩
        ⟨1, [⟨0⟩], ⟨.all, .one 10000, false, 0⟩, 1⟩ ∅).success_count +
      (processJob ⟨true, true, (fun _ => false), (fun _ _ _ => .ok), true, true, true⟩
        ⟨1, [⟨0⟩], ⟨.all, .one 10000, false, 0⟩, 1⟩ ∅).failure_count =
      ([(⟨0⟩ : HVehicle)].length *
        ((⟨.all, .one 10000, false, 0⟩ : HConfig).termList.length *
         (⟨.all, .one 10000, false, 0⟩ : HConfig).mileageList.length))) := by
  decide

/-- C1 (amended): on a job that finalizes as `completed`,
`success_count + failure_count` equals the sum over the job's vehicles
of `|terms| × |mileages|` for each vehicle that resolved and `1` for
each vehicle whose resolution failed; in particular, when every vehicle
resolves it equals `|Vehicles| × |terms| × |mileages|` and every
generated QuoteRequest contributes exactly one success or exactly one
failure. -/
theorem jobCounts_decomposition (o : VendorOracle) (job : HJob) (s : Finset Nat)
    (hstart : o.startOk = true) (hlogin : o.loginOk = true)
    (hins : o.insertOk = true) (hcomp : o.completeOk = true) :
    (processJob o job s).status = .completed ∧
    (processJob o job s).success_count + (processJob o job s).failure_count =
      (job.vehicles.map fun v =>
        if o.resolve v.id then
          job.config.termList.length * job.config.mileageList.length
        else 1).sum ∧
    ((∀ v ∈ job.vehicles, o.resolve v.id = true) →
      (processJob o job s).success_count + (processJob o job s).failure_count =
        job.vehicles.length *
          (job.config.termList.length * job.config.mileageList.length)) := by
  have hbranch : (processJob o job s).status = .completed ∧
      (processJob o job s).success_count = (runVehicles o job.config job.vehicles).succ ∧
      (processJob o job s).failure_count = (runVehicles o job.config job.vehicles).fail := by
    simp [processJob, hstart, hlogin, hins, hcomp]
  obtain ⟨hst, hsc, hfc⟩ := hbranch
  have hsum : (runVehicles o job.config job.vehicles).succ +
      (runVehicles o job.config job.vehicles).fail =
      (job.vehicles.map fun v =>
        if o.resolve v.id then
          job.config.termList.length * job.config.mileageList.length
        else 1).sum := by
    rw [runVehicles_eq]
    show (job.vehicles.map (vSucc o job.config)).sum +
        (job.vehicles.map (vFail o job.config)).sum = _
    rw [sum_map_add]
    congr 1
    apply List.map_congr_left
    intro v _
    cases hres : o.resolve v.id
    · simp [vSucc, vFail, hres]
    · simp only [if_pos, hres]
      exact vSucc_add_vFail o job.config v hres
  refine ⟨hst, by rw [hsc, hfc]; exact hsum, ?_⟩
  intro hall
  rw [hsc, hfc, hsum]
  have : (job.vehicles.map fun v =>
      if o.resolve v.id then
        job.config.termList.length * job.config.mileageList.length
      else 1) = job.vehicles.map fun _ =>
        job.config.termList.length * job.config.mileageList.length := by
    apply List.map_congr_left
    intro v hv
    rw [hall v hv]
    simp
  rw [this, List.map_const', List.sum_replicate, smul_eq_mul]

/-- C1 witness: a two-vehicle job, `terms = "ALL"`, mileage 10000, every
vehicle resolving and every quote succeeding: completed with
`success_count + failure_count = 2 × (4 × 1)`. -/
theorem jobCounts_decomposition_witness :
    (processJob ⟨true, true, (fun _ => true), (fun _ _ _ => .ok), true, true, true⟩
        ⟨1, [⟨0⟩, ⟨1⟩], ⟨.all, .one 10000, false, 0⟩, 2⟩ ∅).status = .completed ∧
    (processJob ⟨true, true, (fun _ => true), (fun _ _ _ => .ok), true, true, true⟩
        ⟨1, [⟨0⟩, ⟨1⟩], ⟨.all, .one 10000, false, 0⟩, 2⟩ ∅).success_count +
      (processJob ⟨true, true, (fun _ => true), (fun _ _ _ => .ok), true, true, true⟩
        ⟨1, [⟨0⟩, ⟨1⟩], ⟨.all, .one 10000, false, 0⟩, 2⟩ ∅).failure_count = 2 * (4 * 1) :=
  ⟨(jobCounts_decomposition ⟨true, true, (fun _ => true), (fun _ _ _ => .ok), true, true, true⟩
      ⟨1, [⟨0⟩, ⟨1⟩], ⟨.all, .one 10000, false, 0⟩, 2⟩ ∅ rfl rfl rfl rfl).1,
   (jobCounts_decomposition ⟨true, true, (fun _ => true), (fun _ _ _ => .ok), true, true, true⟩
      ⟨1, [⟨0⟩, ⟨1⟩], ⟨.all, .one 10000, false, 0⟩, 2⟩ ∅ rfl rfl rfl rfl).2.2
      (by decide)⟩

/-- C2 counterexample: the spec's own scenario — two vehicles, term 36,
`mileages = "ALL"` (8 values), vehicle #2 (id 1) fails resolution, all
quotes for vehicle #1 succeed.  The claim expects 8 failures (one per
QuoteRequest of the failed vehicle); the code records exactly 1 failure
for it, so the job finishes with `success_count = 8`,
`failure_count = 1`, status `completed`. -/
theorem vehicleFailure_counts_cex :
    ((processJob ⟨true, true, (fun vid => vid == 0), (fun _ _ _ => .ok), true, true, true⟩
        ⟨1, [⟨0⟩, ⟨1⟩], ⟨.one 36, .all, false, 0⟩, 2⟩ ∅).success_count = 8) ∧
    ((processJob ⟨true, true, (fun vid => vid == 0), (fun _ _ _ => .ok), true, true, true⟩
        ⟨1, [⟨0⟩, ⟨1⟩], ⟨.one 36, .all, false, 0⟩, 2⟩ ∅).failure_count = 1) ∧
    ((processJob ⟨true, true, (fun vid => vid == 0), (fun _ _ _ => .ok), true, true, true⟩
        ⟨1, [⟨0⟩, ⟨1⟩], ⟨.one 36, .all, false, 0⟩, 2⟩ ∅).status = .completed) ∧
    ¬ ((processJob ⟨true, true, (fun vid => vid == 0), (fun _ _ _ => .ok), true, true, true⟩
        ⟨1, [⟨0⟩, ⟨1⟩], ⟨.one 36, .all, false, 0⟩, 2⟩ ∅).failure_count = 8) := by
  decide

/-- C2 (amended): when resolution of one vehicle V in a job fails,
exactly 1 failure (not `|terms| × |mileages|`) and zero successes are
recorded for V; the job's totals are the per-vehicle sums, so every
other vehicle's contribution is unaffected; and the job still finalizes
as `completed`, not `failed`. -/
theorem vehicleFailure_single_failure (o : VendorOracle) (job : HJob) (s : Finset Nat)
    (hstart : o.startOk = true) (hlogin : o.loginOk = true)
    (hins : o.insertOk = true) (hcomp : o.completeOk = true)
    (v : HVehicle) (_hv : v ∈ job.vehicles) (hres : o.resolve v.id = false) :
    vSucc o job.config v = 0 ∧
    vFail o job.config v = 1 ∧
    (processJob o job s).success_count = (job.vehicles.map (vSucc o job.config)).sum ∧
    (processJob o job s).failure_count = (job.vehicles.map (vFail o job.config)).sum ∧
    (processJob o job s).status = .completed := by
  have hbranch : (processJob o job s).status = .completed ∧
      (processJob o job s).success_count = (runVehicles o job.config job.vehicles).succ ∧
      (processJob o job s).failure_count = (runVehicles o job.config job.vehicles).fail := by
    simp [processJob, hstart, hlogin, hins, hcomp]
  obtain ⟨hst, hsc, hfc⟩ := hbranch
  refine ⟨by simp [vSucc, hres], by simp [vFail, hres], ?_, ?_, hst⟩
  · rw [hsc, runVehicles_eq]
  · rw [hfc, runVehicles_eq]

/-- C2 witness: the amended statement applied to the scenario of the
counterexample: vehicle id 1 fails resolution, contributing 0 successes
and exactly 1 failure, totals being the per-vehicle sums, job completed. -/
theorem vehicleFailure_single_failure_witness :
    vSucc ⟨true, true, (fun vid => vid == 0), (fun _ _ _ => .ok), true, true, true⟩
      ⟨.one 36, .all, false, 0⟩ ⟨1⟩ = 0 ∧
    vFail ⟨true, true, (fun vid => vid == 0), (fun _ _ _ => .ok), true, true, true⟩
      ⟨.one 36, .all, false, 0⟩ ⟨1⟩ = 1 ∧
    (processJob ⟨true, true, (fun vid => vid == 0), (fun _ _ _ => .ok), true, true, true⟩
        ⟨1, [⟨0⟩, ⟨1⟩], ⟨.one 36, .all, false, 0⟩, 2⟩ ∅).success_count =
      ([⟨0⟩, ⟨1⟩].map (vSucc
        ⟨true, true, (fun vid => vid == 0), (fun _ _ _ => .ok), true, true, true⟩
        ⟨.one 36, .all, false, 0⟩)).sum ∧
    (processJob ⟨true, true, (fun vid => vid == 0), (fun _ _ _ => .ok), true, true, true⟩
        ⟨1, [⟨0⟩, ⟨1⟩], ⟨.one 36, .all, false, 0⟩, 2⟩ ∅).failure_count =
      ([⟨0⟩, ⟨1⟩].map (vFail
        ⟨true, true, (fun vid => vid == 0), (fun _ _ _ => .ok), true, true, true⟩
        ⟨.one 36, .all, false, 0⟩)).sum ∧
    (processJob ⟨true, true, (fun vid => vid == 0), (fun _ _ _ => .ok), true, true, true⟩
        ⟨1, [⟨0⟩, ⟨1⟩], ⟨.one 36, .all, false, 0⟩, 2⟩ ∅).status = .completed :=
  vehicleFailure_single_failure
    ⟨true, true, (fun vid => vid == 0), (fun _ _ _ => .ok), true, true, true⟩
    ⟨1, [⟨0⟩, ⟨1⟩], ⟨.one 36, .all, false, 0⟩, 2⟩ ∅
    rfl rfl rfl rfl ⟨1⟩ (by decide) (by decide)

/-- C3 counterexample: a QuoteRequest whose quote calculation fails with
a transient-classified error (timeout/rate-limit) is attempted exactly
once — the trace holds a single `calculateQuote` call for it, not the
two or more that "retries the calculation at least once" requires — and
the failure is recorded immediately. -/
theorem transientRetry_cex :
    (callsFor 0 36 10000
      (processJob ⟨true, true, (fun _ => true), (fun _ _ _ => .errTransient), true, true, true⟩
        ⟨1, [⟨0⟩], ⟨.one 36, .one 10000, false, 0⟩, 1⟩ ∅).events = 1) ∧
    ¬ (2 ≤ callsFor 0 36 10000
      (processJob ⟨true, true, (fun _ => true), (fun _ _ _ => .errTransient), true, true, true⟩
        ⟨1, [⟨0⟩], ⟨.one 36, .one 10000, false, 0⟩, 1⟩ ∅).events) ∧
    ((processJob ⟨true, true, (fun _ => true), (fun _ _ _ => .errTransient), true, true, true⟩
        ⟨1, [⟨0⟩], ⟨.one 36, .one 10000, false, 0⟩, 1⟩ ∅).failure_count = 1) ∧
    ((processJob ⟨true, true, (fun _ => true), (fun _ _ _ => .errTransient), true, true, true⟩
        ⟨1, [⟨0⟩], ⟨.one 36, .one 10000, false, 0⟩, 1⟩ ∅).status = .completed) := by
  decide

/-- C3 (amended): the executor performs no retries for any error class:
each generated QuoteRequest of a resolved vehicle receives exactly one
`calculateQuote` call (the total call count is `#resolved vehicles ×
|terms| × |mileages|`), and every failing request — transient or
permanent — is recorded as a failure immediately, the failure totals
being the per-vehicle sums. -/
theorem noRetry_single_attempt (o : VendorOracle) (job : HJob) (s : Finset Nat)
    (hstart : o.startOk = true) (hlogin : o.loginOk = true)
    (hins : o.insertOk = true) (hcomp : o.completeOk = true) :
    quoteCallCount (processJob o job s).events =
      (job.vehicles.countP fun v => o.resolve v.id) *
        (job.config.termList.length * job.config.mileageList.length) ∧
    (processJob o job s).failure_count = (job.vehicles.map (vFail o job.config)).sum := by
  have hbranch : (processJob o job s).events = (runVehicles o job.config job.vehicles).events ∧
      (processJob o job s).failure_count = (runVehicles o job.config job.vehicles).fail := by
    simp [processJob, hstart, hlogin, hins, hcomp]
  obtain ⟨hev, hfc⟩ := hbranch
  constructor
  · rw [hev, runVehicles_eq]
    show quoteCallCount (job.vehicles.flatMap (vEvents o job.config)) = _
    show List.countP isQuoteCall _ = _
    rw [countP_flatMap]
    have hcong : (job.vehicles.map fun v => (vEvents o job.config v).countP isQuoteCall)
        = job.vehicles.map fun v =>
            if o.resolve v.id then
              job.config.termList.length * job.config.mileageList.length
            else 0 := by
      apply List.map_congr_left
      intro v _
      exact quoteCallCount_vEvents o job.config v
    rw [hcong, sum_map_ite_const]
  · rw [hfc, runVehicles_eq]

/-- C3 witness: the amended statement at the counterexample input — one
resolved vehicle, one transiently failing cell: exactly one call in the
trace and one recorded failure. -/
theorem noRetry_single_attempt_witness :
    quoteCallCount
      (processJob ⟨true, true, (fun _ => true), (fun _ _ _ => .errTransient), true, true, true⟩
        ⟨1, [⟨0⟩], ⟨.one 36, .one 10000, false, 0⟩, 1⟩ ∅).events = 1 * (1 * 1) ∧
    (processJob ⟨true, true, (fun _ => true), (fun _ _ _ => .errTransient), true, true, true⟩
        ⟨1, [⟨0⟩], ⟨.one 36, .one 10000, false, 0⟩, 1⟩ ∅).failure_count =
      ([(⟨0⟩ : HVehicle)].map (vFail
        ⟨true, true, (fun _ => true), (fun _ _ _ => .errTransient), true, true, true⟩
        ⟨.one 36, .one 10000, false, 0⟩)).sum :=
  noRetry_single_attempt
    ⟨true, true, (fun _ => true), (fun _ _ _ => .errTransient), true, true, true⟩
    ⟨1, [⟨0⟩], ⟨.one 36, .one 10000, false, 0⟩, 1⟩ ∅ rfl rfl rfl rfl

/-- C5: if session establishment (`ensureLoggedIn`) fails for a claimed
job, the job transitions to `failed` via `failJob` (the structured-error
write) and zero quote rows are persisted — in this worker the login
precedes the vehicle loop, so nothing accumulated in memory is ever
written on that path.  On the success path all accumulated quotes are
bulk-persisted by `insertQuotes` strictly before the `completeJob`
transition, as the store-op sequence shows. -/
theorem authFailure_persistence (o : VendorOracle) (job : HJob) (s : Finset Nat) :
    (o.startOk = true → o.loginOk = false → o.failOk = true →
      (processJob o job s).status = .failed ∧
      (processJob o job s).persisted = [] ∧
      (processJob o job s).ops =
        [.startProcessing job.id, .failJob job.id job.vehicle_count]) ∧
    (o.startOk = true → o.loginOk = true → o.insertOk = true → o.completeOk = true →
      (processJob o job s).status = .completed ∧
      (processJob o job s).persisted = (runVehicles o job.config job.vehicles).quotes ∧
      (processJob o job s).ops =
        [.startProcessing job.id] ++
        (if (runVehicles o job.config job.vehicles).quotes = [] then []
         else [.insertQuotes job.id (runVehicles o job.config job.vehicles).quotes]) ++
        [.completeJob job.id (runVehicles o job.config job.vehicles).succ
          (runVehicles o job.config job.vehicles).fail]) := by
  constructor
  · intro hstart hlogin hfail
    refine ⟨?_, ?_, ?_⟩ <;> simp [processJob, hstart, hlogin, hfail]
  · intro hstart hlogin hins hcomp
    refine ⟨?_, ?_, ?_⟩ <;> simp [processJob, hstart, hlogin, hins, hcomp]

/-- C5 witness: both directions at concrete inputs — a login failure
(vehicle resolvable, quotes would succeed) yields `failed` with nothing
persisted; the all-success run persists its quote rows before
completing. -/
theorem authFailure_persistence_witness :
    ((processJob ⟨true, false, (fun _ => true), (fun _ _ _ => .ok), true, true, true⟩
        ⟨7, [⟨0⟩], ⟨.one 36, .one 10000, false, 0⟩, 1⟩ ∅).status = .failed ∧
      (processJob ⟨true, false, (fun _ => true), (fun _ _ _ => .ok), true, true, true⟩
        ⟨7, [⟨0⟩], ⟨.one 36, .one 10000, false, 0⟩, 1⟩ ∅).persisted = [] ∧
      (processJob ⟨true, false, (fun _ => true), (fun _ _ _ => .ok), true, true, true⟩
        ⟨7, [⟨0⟩], ⟨.one 36, .one 10000, false, 0⟩, 1⟩ ∅).ops =
        [.startProcessing 7, .failJob 7 1]) ∧
    ((processJob ⟨true, true, (fun _ => true), (fun _ _ _ => .ok), true, true, true⟩
        ⟨7, [⟨0⟩], ⟨.one 36, .one 10000, false, 0⟩, 1⟩ ∅).status = .completed ∧
      (processJob ⟨true, true, (fun _ => true), (fun _ _ _ => .ok), true, true, true⟩
        ⟨7, [⟨0⟩], ⟨.one 36, .one 10000, false, 0⟩, 1⟩ ∅).persisted =
        (runVehicles ⟨true, true, (fun _ => true), (fun _ _ _ => .ok), true, true, true⟩
          ⟨.one 36, .one 10000, false, 0⟩ [⟨0⟩]).quotes ∧
      (processJob ⟨true, true, (fun _ => true), (fun _ _ _ => .ok), true, true, true⟩
        ⟨7, [⟨0⟩], ⟨.one 36, .one 10000, false, 0⟩, 1⟩ ∅).ops =
        [.startProcessing 7] ++
        (if (runVehicles ⟨true, true, (fun _ => true), (fun _ _ _ => .ok), true, true, true⟩
            ⟨.one 36, .one 10000, false, 0⟩ [⟨0⟩]).quotes = [] then []
         else [.insertQuotes 7
            (runVehicles ⟨true, true, (fun _ => true), (fun _ _ _ => .ok), true, true, true⟩
              ⟨.one 36, .one 10000, false, 0⟩ [⟨0⟩]).quotes]) ++
        [.completeJob 7
          (runVehicles ⟨true, true, (fun _ => true), (fun _ _ _ => .ok), true, true, true⟩
            ⟨.one 36, .one 10000, false, 0⟩ [⟨0⟩]).succ
          (runVehicles ⟨true, true, (fun _ => true), (fun _ _ _ => .ok), true, true, true⟩
            ⟨.one 36, .one 10000, false, 0⟩ [⟨0⟩]).fail]) :=
  ⟨(authFailure_persistence
      ⟨true, false, (fun _ => true), (fun _ _ _ => .ok), true, true, true⟩
      ⟨7, [⟨0⟩], ⟨.one 36, .one 10000, false, 0⟩, 1⟩ ∅).1 rfl rfl rfl,
   (authFailure_persistence
      ⟨true, true, (fun _ => true), (fun _ _ _ => .ok), true, true, true⟩
      ⟨7, [⟨0⟩], ⟨.one 36, .one 10000, false, 0⟩, 1⟩ ∅).2 rfl rfl rfl rfl⟩

/-- C6 counterexample: one vehicle, term 36, `mileages = "ALL"`, where
the first quote call fails and the second succeeds.  The trace begins
`resolveCall, quoteCall(36,5000,failed), quoteCall(36,8000,ok)`: the
failed call is followed by the next vendor call with no intervening
delay, so the fixed minimum inter-call delay is not enforced between
every two consecutive vendor calls. -/
theorem interCallDelay_cex :
    ((processJob
        ⟨true, true, (fun _ => true),
          (fun _ _ m => if m == 5000 then .errTransient else .ok), true, true, true⟩
        ⟨1, [⟨0⟩], ⟨.one 36, .all, false, 0⟩, 1⟩ ∅).events.take 3 =
      [.resolveCall 0, .quoteCall 0 36 5000 false, .quoteCall 0 36 8000 true]) ∧
    noAdjacentVendorCalls
      (processJob
        ⟨true, true, (fun _ => true),
          (fun _ _ m => if m == 5000 then .errTransient else .ok), true, true, true⟩
        ⟨1, [⟨0⟩], ⟨.one 36, .all, false, 0⟩, 1⟩ ∅).events = false := by
  decide

/-- C6 (amended): the fixed 500 ms inter-call delay is enforced only
after successful quote calculations: in every trace the worker can
produce, each successful `calculateQuote` call is immediately followed
by the 500 ms pause, while after a failed call (and after a vehicle
lookup) the next vendor call may be issued with no enforced delay. -/
theorem delay_only_after_success (o : VendorOracle) (job : HJob) (s : Finset Nat) :
    pacedAfterSuccess (processJob o job s).events = true := by
  have hp := paced_runVehicles o job.config job.vehicles
  simp only [processJob]
  repeat' split
  all_goals first
    | rfl
    | exact hp

end SplitLease
